import Mathlib

/-!
# Verification of `src/package.cpp` (pcurses `Package` class)

Shallow embedding of the `Package` value object of pcurses: construction
from an alpm package handle plus the local-database lookup result, the
string accessors, the attribute dispatchers, and the three helper
functions `size2str`, `trimstr`, `list2str` / `deplist2str`.

Modelling conventions:
* C strings (`const char *`) that may be `NULL` are `Option String`;
  `std::string` values are `String`.
* `off_t` / numeric fields are `ℕ` (sizes reported by the library are
  non-negative) or `ℤ` (timestamps, comparison results).
* The C++ enums `AttributeEnum`, `InstallReasonEnum`, `UpdateStateEnum`
  and `OperationEnum` are declared in `package.h`, which is not part of
  this excerpt; they are modelled as `ℕ` codes, numbered in the order the
  dispatch switches list them.  Representing them as raw integers keeps
  the defensive `default:` branches of the switch statements (reachable
  in C++ by casting an out-of-range integer to the enum) representable.
* `PcursesException` is modelled as the `Except String` error monad,
  carrying the exception's message string.
* External alpm collaborators (`alpm_pkg_vercmp`, `alpm_dep_compute_string`,
  `std::ctime`) are parameters of the corresponding definitions.
* IEEE single precision (`float fsize = size;` in `size2str`) is modelled
  exactly over `ℚ`: the only inexact operation in `size2str` is the
  integer-to-float conversion, which rounds to 24 significant bits
  (round to nearest, ties to even); dividing the resulting float by 1024
  merely decrements the exponent and is exact, comparisons are exact, and
  the two-decimal formatting is glibc's correct rounding of the exact
  represented value (ties to even).
-/

/-! ## Whitespace and `trimstr` -/

/-- The whitespace set `" \t\n"` used by `Package::trimstr`. -/
def isTrimWs (c : Char) : Bool :=
  c = ' ' || c = '\t' || c = '\n'

/-- `str.find_first_not_of(" \t\n")` / `str.find_last_not_of(" \t\n")`
followed by `substr(startpos, endpos - startpos + 1)`, with the
`npos` checks of the source; `none` models a `NULL` `const char *`.
The last index not of the set is `length - 1 - k` where `k` is the first
non-whitespace index of the reversed list. -/
def trimstrList (l : List Char) : List Char :=
  match l.findIdx? (fun c => !isTrimWs c), l.reverse.findIdx? (fun c => !isTrimWs c) with
  | some i, some k => (l.drop i).take (l.length - 1 - k - i + 1)
  | _, _ => []

/-- `Package::trimstr`: `NULL` becomes `""`; otherwise trim the
leading/trailing whitespace via the index computations above. -/
def trimstr (c : Option String) : String :=
  match c with
  | none => ""
  | some s => ⟨trimstrList s.data⟩

/-- Modelled from the spec: "the trimmed result" is the input with all
leading and trailing whitespace (space, tab, newline) removed.  Stated
independently of the index arithmetic of the source, for comparison. -/
def trimSpec (c : Option String) : String :=
  match c with
  | none => ""
  | some s => ⟨((s.data.dropWhile isTrimWs).reverse.dropWhile isTrimWs).reverse⟩

/-! ## List joining: `list2str` and `deplist2str` -/

/-- `Package::list2str`: iterate over the alpm list, prepending the
delimiter before every item except the first (`if (i != l)`). -/
def list2str (l : List String) (delim : String) : String :=
  match l with
  | [] => ""
  | x :: xs => xs.foldl (fun res s => res ++ delim ++ s) ("" ++ x)

/-- `Package::deplist2str`: render each dependency through the external
`alpm_dep_compute_string` (the parameter `f`), appending the delimiter
after every item that has a successor (`if (deps->next != NULL)`). -/
def deplist2str {Dep : Type} (f : Dep → String) (l : List Dep) (delim : String) : String :=
  match l with
  | [] => ""
  | [x] => f x
  | x :: y :: xs => f x ++ delim ++ deplist2str f (y :: xs) delim

/-! ## `size2str` and its float model -/

/-- Binary logarithm by structural recursion on fuel (so the kernel can
evaluate it); with `fuel ≥ n` it is the usual `⌊log₂ n⌋`. -/
def log2F : ℕ → ℕ → ℕ
  | 0, _ => 0
  | fuel + 1, n => if 2 ≤ n then log2F fuel (n / 2) + 1 else 0

/-- `⌊log₂ n⌋` (0 at 0): the exponent of the leading binary digit. -/
def log2N (n : ℕ) : ℕ :=
  log2F n n

/-- Conversion of a non-negative integer to IEEE single precision,
modelled exactly: values below `2^24` are exact; larger values are
rounded to a multiple of `2^(e-23)` (where `2^e ≤ n < 2^(e+1)`) by
round-to-nearest, ties to even.  Every byte count an `off_t` can hold
stays far below the largest finite `float`. -/
def toFloat24 (n : ℕ) : ℕ :=
  if n < 2 ^ 24 then n
  else
    let e := log2N n
    let d := 2 ^ (e - 23)
    let q := n / d
    let r := n % d
    (if d < 2 * r ∨ (2 * r = d ∧ q % 2 = 1) then q + 1 else q) * d

/-- The `while (fsize > 1024.0 && currentunit < unitssize - 1)` loop of
`Package::size2str`.  The guard `currentunit < unitssize - 1` (i.e.
`currentunit < 4`) is expressed as structural fuel: the loop is entered
with `currentunit = 0` and fuel `4`, so fuel runs out exactly when the
unit index reaches `4`.  Dividing a `float` by 1024 is exact, so `ℚ`
division models it faithfully. -/
def sizeLoop : ℕ → ℚ → ℕ → ℚ × ℕ
  | 0, fsize, currentunit => (fsize, currentunit)
  | fuel + 1, fsize, currentunit =>
    if 1024 < fsize then sizeLoop fuel (fsize / 1024) (currentunit + 1)
    else (fsize, currentunit)

/-- Round to the nearest integer, ties to even: the rounding glibc's
`printf`-family formatting applies to the exact binary value when
producing a fixed-precision decimal. -/
def roundHE (x : ℚ) : ℤ :=
  if 1 / 2 < x - ⌊x⌋ then ⌊x⌋ + 1
  else if x - ⌊x⌋ < 1 / 2 then ⌊x⌋
  else if ⌊x⌋ % 2 = 0 then ⌊x⌋ else ⌊x⌋ + 1

/-- `std::fixed << std::setprecision(2)` rendering of a non-negative
value: the integer part, a dot, and the zero-padded hundredths. -/
def fmt2 (x : ℚ) : String :=
  Nat.repr ((roundHE (100 * x)).toNat / 100) ++ "." ++
    (if (roundHE (100 * x)).toNat % 100 < 10 then "0" else "") ++
    Nat.repr ((roundHE (100 * x)).toNat % 100)

/-- The `units` array `{"B", "KB", "MB", "GB", "TB"}`; the loop never
produces an index above 4. -/
def unitName (u : ℕ) : String :=
  match u with
  | 0 => "B"
  | 1 => "KB"
  | 2 => "MB"
  | 3 => "GB"
  | _ => "TB"

/-- The body of `Package::size2str` applied to an already-converted
float value (exact rational): run the scaling loop from unit index 0,
then print the value, a space, and the unit label. -/
def size2strQ (fsize : ℚ) : String :=
  fmt2 (sizeLoop 4 fsize 0).1 ++ " " ++ unitName (sizeLoop 4 fsize 0).2

/-- `Package::size2str` on a byte count: `float fsize = size;` then the
scaling loop and the two-decimal formatting. -/
def size2str (size : ℕ) : String :=
  size2strQ (toFloat24 size)

/-- The unit index `size2str` stops at for a given byte count. -/
def sizeUnitIdx (size : ℕ) : ℕ :=
  (sizeLoop 4 (toFloat24 size) 0).2

/-- The scaled value `size2str` prints, in hundredths (the two-decimal
digit string `d.hh` denotes `(100 * d + hh)` hundredths). -/
def sizeHundredths (size : ℕ) : ℤ :=
  roundHE (100 * (sizeLoop 4 (toFloat24 size) 0).1)

/-- The numeric value printed by `size2str`, as an exact rational. -/
def sizeValue (size : ℕ) : ℚ :=
  (sizeHundredths size : ℚ) / 100

/-! ## The alpm model -/

/-- The result of `alpm_db_get_pkg(localdb, name)` when a local package
exists, together with the external per-local-package queries the
constructor performs on it: `alpm_pkg_get_version`,
`alpm_pkg_get_reason`, `alpm_pkg_compute_requiredby`,
`alpm_pkg_compute_optionalfor`. -/
structure LocalPkg where
  version : String
  reason : ℕ
  requiredby : List String
  optionalfor : List String

/-- `ALPM_PKG_REASON_DEPEND` of the external alpm library (its header is
outside this excerpt; the value is opaque to the code, which only
compares against it). -/
def ALPM_PKG_REASON_DEPEND : ℕ := 1

/-- Everything the constructor reads off the `alpm_pkg_t *pkg` handle.
Nullable C strings are `Option String`. -/
structure PkgHandle (Dep : Type) where
  name : Option String
  url : Option String
  packager : Option String
  desc : Option String
  version : Option String
  dbname : Option String
  builddate : ℤ
  arch : Option String
  size : ℕ
  isize : ℕ
  licenses : List String
  groups : List String
  optdepends : List Dep
  conflicts : List Dep
  provides : List Dep
  replaces : List Dep
  depends : List Dep
  hasSig : Bool

/-- `USE_NOTINSTALLED`, `USE_UPDATEAVAILABLE`, `USE_UPTODATE`
(`UpdateStateEnum` of `package.h`, not part of the excerpt; codes in
declaration order of the dispatch switch). -/
def USE_NOTINSTALLED : ℕ := 0

def USE_UPDATEAVAILABLE : ℕ := 1

def USE_UPTODATE : ℕ := 2

/-- `IRE_NOTINSTALLED`, `IRE_EXPLICIT`, `IRE_ASDEPS`
(`InstallReasonEnum` of `package.h`, not part of the excerpt). -/
def IRE_NOTINSTALLED : ℕ := 0

def IRE_EXPLICIT : ℕ := 1

def IRE_ASDEPS : ℕ := 2

/-- The `Package` object: the fields memoized by the constructor plus
the two mutable UI annotations.  Field names follow the C++ members
(without the leading underscore). -/
structure Package where
  name : String
  url : String
  packager : String
  desc : String
  version : String
  dbname : String
  builddate : ℤ
  arch : String
  size : ℕ
  installsize : ℕ
  sizestr : String
  installsizestr : String
  licenses : String
  groups : String
  optdepends : String
  conflicts : String
  provides : String
  replaces : String
  depends : String
  signature : String
  localversion : String
  updatestate : ℕ
  requiredby : String
  optionalfor : String
  reason : ℕ
  colindex : ℤ
  op : ℕ

/-- `Package::Package(alpm_pkg_t *pkg, alpm_db_t *localdb)`.
`vercmp` is the external `alpm_pkg_vercmp`; `f` is the external
`alpm_dep_compute_string`; `localpkg` is the result of the
`alpm_db_get_pkg(localdb, alpm_pkg_get_name(pkg))` lookup.
`_colindex` and `op` are not assigned by the constructor (indeterminate
in C++ until their setters run); the model fixes them at 0. -/
def mkPackage {Dep : Type} (vercmp : String → String → ℤ) (f : Dep → String)
    (pkg : PkgHandle Dep) (localpkg : Option LocalPkg) : Package :=
  { name := trimstr pkg.name
    url := trimstr pkg.url
    packager := trimstr pkg.packager
    desc := trimstr pkg.desc
    version := trimstr pkg.version
    dbname := trimstr pkg.dbname
    builddate := pkg.builddate
    arch := trimstr pkg.arch
    size := pkg.size
    installsize := pkg.isize
    sizestr := size2str pkg.size
    installsizestr := size2str pkg.isize
    licenses := list2str pkg.licenses " "
    groups := list2str pkg.groups " "
    optdepends := deplist2str f pkg.optdepends "\n            "
    conflicts := deplist2str f pkg.conflicts " "
    provides := deplist2str f pkg.provides " "
    replaces := deplist2str f pkg.replaces " "
    depends := deplist2str f pkg.depends " "
    signature := if pkg.hasSig then "Yes" else "None"
    localversion :=
      match localpkg with
      | none => ""
      | some lp => lp.version
    updatestate :=
      match localpkg with
      | none => USE_NOTINSTALLED
      | some lp =>
        if 0 < vercmp (trimstr pkg.version) lp.version then USE_UPDATEAVAILABLE
        else USE_UPTODATE
    requiredby :=
      match localpkg with
      | none => ""
      | some lp => list2str lp.requiredby " "
    optionalfor :=
      match localpkg with
      | none => ""
      | some lp => list2str lp.optionalfor " "
    reason :=
      match localpkg with
      | none => IRE_NOTINSTALLED
      | some lp => if lp.reason = ALPM_PKG_REASON_DEPEND then IRE_ASDEPS else IRE_EXPLICIT
    colindex := 0
    op := 0 }

/-! ## Accessors -/

def getname (p : Package) : String := p.name

def getdesc (p : Package) : String := p.desc

/-- `Package::getversion`: append `" (local: <localversion>)"` exactly
in the `USE_UPDATEAVAILABLE` state. -/
def getversion (p : Package) : String :=
  if p.updatestate = USE_UPDATEAVAILABLE then
    p.version ++ " (local: " ++ p.localversion ++ ")"
  else p.version

def getrepo (p : Package) : String := p.dbname

/-- `Package::getreason`: switch over the reason code, throwing on a
value outside the enumerated set. -/
def getreason (p : Package) : Except String String :=
  if p.reason = IRE_NOTINSTALLED then .ok "not installed"
  else if p.reason = IRE_EXPLICIT then .ok "explicit"
  else if p.reason = IRE_ASDEPS then .ok "as dependency"
  else .error "no package install reason."

def getpackager (p : Package) : String := p.packager

def geturl (p : Package) : String := p.url

/-- `Package::getbuilddate`: `std::ctime` (external, locale dependent;
the parameter `ctimeF`) with the trailing newline removed. -/
def getbuilddate (ctimeF : ℤ → String) (p : Package) : String :=
  let timestr := ctimeF p.builddate
  timestr.take (timestr.length - 1)

def getarch (p : Package) : String := p.arch

def getlicenses (p : Package) : String := p.licenses

def getgroups (p : Package) : String := p.groups

def getdepends (p : Package) : String := p.depends

def getoptdepends (p : Package) : String := p.optdepends

def getconflicts (p : Package) : String := p.conflicts

def getprovides (p : Package) : String := p.provides

def getreplaces (p : Package) : String := p.replaces

def getrequiredby (p : Package) : String := p.requiredby

def getoptionalfor (p : Package) : String := p.optionalfor

def getsignature (p : Package) : String := p.signature

def getsize (p : Package) : String := p.sizestr

def getisize (p : Package) : String := p.installsizestr

/-- `Package::getupdatestate`: switch over the state code, throwing on a
value outside the enumerated set. -/
def getupdatestate (p : Package) : Except String String :=
  if p.updatestate = USE_NOTINSTALLED then .ok "not installed"
  else if p.updatestate = USE_UPDATEAVAILABLE then .ok "update available"
  else if p.updatestate = USE_UPTODATE then .ok "up to date"
  else .error "no package update state."

/-- `AttributeEnum` codes (`package.h`, not part of the excerpt),
numbered in the order the `getattr` switch lists them. -/
def A_NAME : ℕ := 0

def A_VERSION : ℕ := 1

def A_URL : ℕ := 2

def A_REPO : ℕ := 3

def A_PACKAGER : ℕ := 4

def A_BUILDDATE : ℕ := 5

def A_INSTALLSTATE : ℕ := 6

def A_UPDATESTATE : ℕ := 7

def A_DESC : ℕ := 8

def A_ARCH : ℕ := 9

def A_LICENSES : ℕ := 10

def A_GROUPS : ℕ := 11

def A_DEPENDS : ℕ := 12

def A_OPTDEPENDS : ℕ := 13

def A_CONFLICTS : ℕ := 14

def A_PROVIDES : ℕ := 15

def A_REPLACES : ℕ := 16

def A_REQUIREDBY : ℕ := 17

def A_OPTIONALFOR : ℕ := 18

def A_SIGNATURE : ℕ := 19

def A_SIZE : ℕ := 20

def A_ISIZE : ℕ := 21

def A_NONE : ℕ := 22

/-- The enumerated attribute set (every `AttributeEnum` member). -/
def attrCodes : List ℕ :=
  [A_NAME, A_VERSION, A_URL, A_REPO, A_PACKAGER, A_BUILDDATE, A_INSTALLSTATE,
   A_UPDATESTATE, A_DESC, A_ARCH, A_LICENSES, A_GROUPS, A_DEPENDS, A_OPTDEPENDS,
   A_CONFLICTS, A_PROVIDES, A_REPLACES, A_REQUIREDBY, A_OPTIONALFOR, A_SIGNATURE,
   A_SIZE, A_ISIZE, A_NONE]

/-- `Package::getattr`: the string-attribute dispatch switch; the
`default:` branch throws `PcursesException("Invalid attribute passed.")`.
A `PcursesException` raised by `getreason`/`getupdatestate` propagates. -/
def getattr (ctimeF : ℤ → String) (p : Package) (attr : ℕ) : Except String String :=
  if attr = A_NAME then .ok (getname p)
  else if attr = A_VERSION then .ok (getversion p)
  else if attr = A_URL then .ok (geturl p)
  else if attr = A_REPO then .ok (getrepo p)
  else if attr = A_PACKAGER then .ok (getpackager p)
  else if attr = A_BUILDDATE then .ok (getbuilddate ctimeF p)
  else if attr = A_INSTALLSTATE then getreason p
  else if attr = A_UPDATESTATE then getupdatestate p
  else if attr = A_DESC then .ok (getdesc p)
  else if attr = A_ARCH then .ok (getarch p)
  else if attr = A_LICENSES then .ok (getlicenses p)
  else if attr = A_GROUPS then .ok (getgroups p)
  else if attr = A_DEPENDS then .ok (getdepends p)
  else if attr = A_OPTDEPENDS then .ok (getoptdepends p)
  else if attr = A_CONFLICTS then .ok (getconflicts p)
  else if attr = A_PROVIDES then .ok (getprovides p)
  else if attr = A_REPLACES then .ok (getreplaces p)
  else if attr = A_REQUIREDBY then .ok (getrequiredby p)
  else if attr = A_OPTIONALFOR then .ok (getoptionalfor p)
  else if attr = A_SIGNATURE then .ok (getsignature p)
  else if attr = A_SIZE then .ok (getsize p)
  else if attr = A_ISIZE then .ok (getisize p)
  else if attr = A_NONE then .ok ""
  else .error "Invalid attribute passed."

/-- `Package::getoffattr`: the numeric-attribute dispatch switch; only
build date and the two sizes have numeric accessors. -/
def getoffattr (p : Package) (attr : ℕ) : Except String ℤ :=
  if attr = A_BUILDDATE then .ok p.builddate
  else if attr = A_SIZE then .ok (p.size : ℤ)
  else if attr = A_ISIZE then .ok (p.installsize : ℤ)
  else .error "Invalid attribute passed."

/-! ## Mutators -/

def setcolindex (p : Package) (index : ℤ) : Package := { p with colindex := index }

def getcolindex (p : Package) : ℤ := p.colindex

def setop (p : Package) (oe : ℕ) : Package := { p with op := oe }

def getop (p : Package) : ℕ := p.op

/-! ## Lemmas about the size formatter -/

section SizeLemmas

/-- Once the value is at or below 1024, the loop stops immediately. -/
theorem sizeLoop_stop {fuel : ℕ} {x : ℚ} (h : x ≤ 1024) (u : ℕ) :
    sizeLoop fuel x u = (x, u) := by
  cases fuel <;> simp [sizeLoop, not_lt.2 h]

theorem sizeParts0 {x : ℚ} (h : x ≤ 1024) : sizeLoop 4 x 0 = (x, 0) :=
  sizeLoop_stop h 0

theorem sizeParts1 {x : ℚ} (h1 : 1024 < x) (h2 : x ≤ 1024 ^ 2) :
    sizeLoop 4 x 0 = (x / 1024, 1) := by
  have hx : ¬ 1024 < x / 1024 := by
    rw [not_lt, div_le_iff₀ (by norm_num : (0:ℚ) < 1024)]
    nlinarith
  simp only [sizeLoop, if_pos h1]
  rw [if_neg hx]

theorem sizeParts2 {x : ℚ} (h1 : 1024 ^ 2 < x) (h2 : x ≤ 1024 ^ 3) :
    sizeLoop 4 x 0 = (x / 1024 ^ 2, 2) := by
  have ha : 1024 < x := by nlinarith
  have hb : 1024 < x / 1024 := by
    rw [lt_div_iff₀ (by norm_num : (0:ℚ) < 1024)]
    nlinarith
  have hc : ¬ 1024 < x / 1024 / 1024 := by
    rw [not_lt, div_le_iff₀ (by norm_num : (0:ℚ) < 1024),
        div_le_iff₀ (by norm_num : (0:ℚ) < 1024)]
    nlinarith
  simp only [sizeLoop, if_pos ha, if_pos hb]
  rw [if_neg hc, div_div]
  norm_num

theorem sizeParts3 {x : ℚ} (h1 : 1024 ^ 3 < x) (h2 : x ≤ 1024 ^ 4) :
    sizeLoop 4 x 0 = (x / 1024 ^ 3, 3) := by
  have ha : 1024 < x := by nlinarith
  have hb : 1024 < x / 1024 := by
    rw [lt_div_iff₀ (by norm_num : (0:ℚ) < 1024)]
    nlinarith
  have hc : 1024 < x / 1024 / 1024 := by
    rw [lt_div_iff₀ (by norm_num : (0:ℚ) < 1024),
        lt_div_iff₀ (by norm_num : (0:ℚ) < 1024)]
    nlinarith
  have hd : ¬ 1024 < x / 1024 / 1024 / 1024 := by
    rw [not_lt, div_le_iff₀ (by norm_num : (0:ℚ) < 1024),
        div_le_iff₀ (by norm_num : (0:ℚ) < 1024),
        div_le_iff₀ (by norm_num : (0:ℚ) < 1024)]
    nlinarith
  simp only [sizeLoop, if_pos ha, if_pos hb, if_pos hc]
  rw [if_neg hd, div_div, div_div]
  norm_num

theorem sizeParts4 {x : ℚ} (h1 : 1024 ^ 4 < x) :
    sizeLoop 4 x 0 = (x / 1024 ^ 4, 4) := by
  have ha : 1024 < x := by nlinarith
  have hb : 1024 < x / 1024 := by
    rw [lt_div_iff₀ (by norm_num : (0:ℚ) < 1024)]
    nlinarith
  have hc : 1024 < x / 1024 / 1024 := by
    rw [lt_div_iff₀ (by norm_num : (0:ℚ) < 1024),
        lt_div_iff₀ (by norm_num : (0:ℚ) < 1024)]
    nlinarith
  have hd : 1024 < x / 1024 / 1024 / 1024 := by
    rw [lt_div_iff₀ (by norm_num : (0:ℚ) < 1024),
        lt_div_iff₀ (by norm_num : (0:ℚ) < 1024),
        lt_div_iff₀ (by norm_num : (0:ℚ) < 1024)]
    nlinarith
  simp only [sizeLoop, if_pos ha, if_pos hb, if_pos hc, if_pos hd]
  rw [div_div, div_div, div_div]
  norm_num

end SizeLemmas

section RoundLemmas

theorem roundHE_le (x : ℚ) : (roundHE x : ℚ) ≤ x + 1 / 2 := by
  unfold roundHE
  have h1 : (⌊x⌋ : ℚ) ≤ x := Int.floor_le x
  have h2 : x - 1 < (⌊x⌋ : ℚ) := Int.sub_one_lt_floor x
  split_ifs <;> push_cast <;> linarith

theorem le_roundHE (x : ℚ) : x - 1 / 2 ≤ (roundHE x : ℚ) := by
  unfold roundHE
  have h1 : (⌊x⌋ : ℚ) ≤ x := Int.floor_le x
  have h2 : x - 1 < (⌊x⌋ : ℚ) := Int.sub_one_lt_floor x
  split_ifs with hA hB hC
  · push_cast; linarith
  · linarith
  all_goals
    have h3 : x - (⌊x⌋ : ℚ) = 1 / 2 := le_antisymm (not_lt.1 hA) (not_lt.1 hB)
    push_cast
    linarith

theorem roundHE_intCast (n : ℤ) : roundHE (n : ℚ) = n := by
  unfold roundHE
  rw [Int.floor_intCast]
  norm_num

theorem fmt2_congr {x y : ℚ} (h : roundHE (100 * x) = roundHE (100 * y)) :
    fmt2 x = fmt2 y := by
  unfold fmt2
  rw [h]

end RoundLemmas

section FloatLemmas

/-- With enough fuel, `log2F` brackets its argument between consecutive
powers of two. -/
theorem log2F_bracket :
    ∀ (fuel n : ℕ), 0 < n → n ≤ fuel →
      2 ^ log2F fuel n ≤ n ∧ n < 2 ^ (log2F fuel n + 1) := by
  intro fuel
  induction fuel with
  | zero => intro n h1 h2; omega
  | succ fuel ih =>
    intro n h1 h2
    by_cases h : 2 ≤ n
    · have hrec := ih (n / 2) (by omega) (by omega)
      simp only [log2F, if_pos h]
      obtain ⟨ha, hb⟩ := hrec
      constructor
      · calc 2 ^ (log2F fuel (n / 2) + 1) = 2 * 2 ^ log2F fuel (n / 2) := by ring
        _ ≤ 2 * (n / 2) := by omega
        _ ≤ n := by omega
      · have : n < 2 * (n / 2) + 2 := by omega
        calc n < 2 * (n / 2) + 2 := this
        _ ≤ 2 * (2 ^ (log2F fuel (n / 2) + 1) - 1) + 2 := by omega
        _ ≤ 2 ^ (log2F fuel (n / 2) + 1 + 1) := by
            have : 1 ≤ 2 ^ (log2F fuel (n / 2) + 1) := Nat.one_le_two_pow
            ring_nf
            omega
    · have hn : n = 1 := by omega
      subst hn
      simp [log2F]

theorem log2N_bracket {n : ℕ} (h : 0 < n) :
    2 ^ log2N n ≤ n ∧ n < 2 ^ (log2N n + 1) :=
  log2F_bracket n n h le_rfl

/-- `log2N` is determined by any bracketing pair of powers. -/
theorem log2N_eq {n e : ℕ} (h1 : 2 ^ e ≤ n) (h2 : n < 2 ^ (e + 1)) :
    log2N n = e := by
  have hpos : 0 < n := lt_of_lt_of_le (Nat.pos_pow_of_pos e (by norm_num)) h1
  obtain ⟨ha, hb⟩ := log2N_bracket hpos
  by_contra hne
  rcases Nat.lt_or_ge (log2N n) e with hlt | hge
  · have : 2 ^ (log2N n + 1) ≤ 2 ^ e := Nat.pow_le_pow_right (by norm_num) (by omega)
    omega
  · have : 2 ^ (e + 1) ≤ 2 ^ log2N n := Nat.pow_le_pow_right (by norm_num) (by omega)
    omega

/-- Small values convert exactly. -/
theorem toFloat24_small {n : ℕ} (h : n < 2 ^ 24) : toFloat24 n = n := by
  unfold toFloat24
  rw [if_pos h]

/-- The float conversion collapses the whole window
`[1024^4, 1024^4 + 2^16]` onto `1024^4` (round to nearest, ties to
even, with an even target mantissa). -/
theorem toFloat24_windowTB {n : ℕ} (h1 : 2 ^ 40 ≤ n) (h2 : n ≤ 2 ^ 40 + 2 ^ 16) :
    toFloat24 n = 2 ^ 40 := by
  have hbig : ¬ n < 2 ^ 24 := by omega
  have he : log2N n = 40 := log2N_eq (by omega) (by norm_num; omega)
  simp only [toFloat24, if_neg hbig, he]
  norm_num
  split_ifs <;> omega

/-- Beyond `1024^4 + 2^16` the float conversion exceeds `1024^4`. -/
theorem toFloat24_beyondTB {n : ℕ} (h : 2 ^ 40 + 2 ^ 16 < n) :
    2 ^ 40 < toFloat24 n := by
  have hbig : ¬ n < 2 ^ 24 := by omega
  rcases Nat.lt_or_ge n (2 ^ 41) with hlt | hge
  · have he : log2N n = 40 := log2N_eq (by omega) (by norm_num; omega)
    simp only [toFloat24, if_neg hbig, he]
    norm_num
    split_ifs <;> omega
  · have hpos : 0 < n := by omega
    obtain ⟨ha, hb⟩ := log2N_bracket hpos
    have he : 41 ≤ log2N n := by
      by_contra hc
      have : 2 ^ (log2N n + 1) ≤ 2 ^ 41 := Nat.pow_le_pow_right (by norm_num) (by omega)
      omega
    simp only [toFloat24, if_neg hbig]
    have hq : 2 ^ 23 ≤ n / 2 ^ (log2N n - 23) := by
      rw [Nat.le_div_iff_mul_le (Nat.pos_pow_of_pos _ (by norm_num))]
      calc 2 ^ 23 * 2 ^ (log2N n - 23) = 2 ^ (23 + (log2N n - 23)) := by rw [pow_add]
      _ = 2 ^ log2N n := by congr 1; omega
      _ ≤ n := ha
    have hd : 2 ^ 18 ≤ 2 ^ (log2N n - 23) :=
      Nat.pow_le_pow_right (by norm_num) (by omega)
    have hmul : 2 ^ 41 ≤ n / 2 ^ (log2N n - 23) * 2 ^ (log2N n - 23) := by
      calc (2 ^ 41 : ℕ) = 2 ^ 23 * 2 ^ 18 := by norm_num
      _ ≤ n / 2 ^ (log2N n - 23) * 2 ^ (log2N n - 23) := Nat.mul_le_mul hq hd
    have hmono : n / 2 ^ (log2N n - 23) * 2 ^ (log2N n - 23) ≤
        (n / 2 ^ (log2N n - 23) + 1) * 2 ^ (log2N n - 23) :=
      Nat.mul_le_mul_right _ (Nat.le_succ _)
    split_ifs <;> linarith

end FloatLemmas

/-! ## Claim C1 -/

section ClaimC1

attribute [local semireducible] Rat.mul Rat.inv Rat.sub Rat.add

/-- C1 counterexample: at exactly `1024^4` bytes the strict `>`
comparison stops the loop at the GB unit (`"1024.00 GB"`), so the unit
is not `"TB"` although `b ≥ 1024^4`. -/
theorem size2str_pow4_is_GB :
    size2str (1024 ^ 4) = "1024.00 GB" ∧ unitName (sizeUnitIdx (1024 ^ 4)) ≠ "TB" := by
  constructor <;> decide

/-- C1 (amended): `size2str` divides by 1024 while the value is strictly
above 1024 and the unit index is below the last unit, and formats with
two decimals, a space and the unit; `size2str 0 = "0.00 B"`,
`size2str 1536 = "1.50 KB"`, `size2str (2*1024*1024) = "2.00 MB"`; the
unit is `"TB"` for every `b > 1024^4 + 65536`, while for
`1024^4 ≤ b ≤ 1024^4 + 65536` the float conversion rounds `b` down to
`1024^4` and the strict comparison leaves the unit at `"GB"`. -/
theorem size2str_spec :
    size2str 0 = "0.00 B" ∧ size2str 1536 = "1.50 KB" ∧
    size2str (2 * 1024 * 1024) = "2.00 MB" ∧
    (∀ b : ℕ, 1024 ^ 4 ≤ b → b ≤ 1024 ^ 4 + 65536 → unitName (sizeUnitIdx b) = "GB") ∧
    (∀ b : ℕ, 1024 ^ 4 + 65536 < b → unitName (sizeUnitIdx b) = "TB") := by
  refine ⟨by decide, by decide, by decide, ?_, ?_⟩
  · intro b hb1 hb2
    have e4 : (1024 : ℕ) ^ 4 = 2 ^ 40 := by norm_num
    have hf : toFloat24 b = 2 ^ 40 := toFloat24_windowTB (by omega) (by omega)
    have hcast : ((toFloat24 b : ℕ) : ℚ) = 1024 ^ 4 := by
      rw [hf]; push_cast; norm_num
    unfold sizeUnitIdx
    rw [hcast, sizeParts3 (by norm_num) le_rfl]
    rfl
  · intro b hb
    have e4 : (1024 : ℕ) ^ 4 = 2 ^ 40 := by norm_num
    have hf : 2 ^ 40 < toFloat24 b := toFloat24_beyondTB (by omega)
    have hcast : (1024 : ℚ) ^ 4 < ((toFloat24 b : ℕ) : ℚ) := by
      have : ((2 ^ 40 : ℕ) : ℚ) < ((toFloat24 b : ℕ) : ℚ) := by exact_mod_cast hf
      calc (1024 : ℚ) ^ 4 = ((2 ^ 40 : ℕ) : ℚ) := by push_cast; norm_num
      _ < _ := this
    unfold sizeUnitIdx
    rw [sizeParts4 hcast]
    rfl

/-- Witness for C1: both branches at concrete byte counts. -/
theorem size2str_spec_witness :
    unitName (sizeUnitIdx (1024 ^ 4 + 7)) = "GB" ∧
    unitName (sizeUnitIdx (1024 ^ 4 + 65537)) = "TB" :=
  ⟨size2str_spec.2.2.2.1 (1024 ^ 4 + 7) (by norm_num) (by norm_num),
   size2str_spec.2.2.2.2 (1024 ^ 4 + 65537) (by norm_num)⟩

end ClaimC1

/-! ## Round-trip lemmas and Claim C7 -/

section RoundtripLemmas

theorem roundHE_nonneg {y : ℚ} (hy : 0 ≤ y) : 0 ≤ roundHE y := by
  have hb := le_roundHE y
  by_contra hc
  push_neg at hc
  have h1 : roundHE y ≤ -1 := by omega
  have h2 : ((roundHE y : ℤ) : ℚ) ≤ ((-1 : ℤ) : ℚ) := by exact_mod_cast h1
  push_cast at h2
  linarith

theorem roundHE_ge_100 {y : ℚ} (hy : 1 < y) : 100 ≤ roundHE (100 * y) := by
  have hb := le_roundHE (100 * y)
  by_contra hc
  push_neg at hc
  have h1 : roundHE (100 * y) ≤ 99 := by omega
  have h2 : ((roundHE (100 * y) : ℤ) : ℚ) ≤ ((99 : ℤ) : ℚ) := by exact_mod_cast h1
  push_cast at h2
  linarith

theorem roundHE_le_102400 {y : ℚ} (hy : y ≤ 1024) : roundHE (100 * y) ≤ 102400 := by
  have hb := roundHE_le (100 * y)
  by_contra hc
  push_neg at hc
  have h1 : (102401 : ℤ) ≤ roundHE (100 * y) := by omega
  have h2 : ((102401 : ℤ) : ℚ) ≤ ((roundHE (100 * y) : ℤ) : ℚ) := by exact_mod_cast h1
  push_cast at h2
  linarith

/-- Re-rounding the printed value changes nothing: `h/100`, scaled back
by 100, rounds to `h`. -/
theorem roundHE_cancel (h : ℤ) : roundHE (100 * ((h : ℚ) / 100)) = h := by
  have hq : (100 : ℚ) * ((h : ℚ) / 100) = (h : ℚ) := by field_simp
  rw [hq, roundHE_intCast]

theorem sizeParts_mid {x : ℚ} {k : ℕ} (hk : k = 1 ∨ k = 2 ∨ k = 3)
    (h1 : (1024 : ℚ) ^ k < x) (h2 : x ≤ 1024 ^ (k + 1)) :
    sizeLoop 4 x 0 = (x / 1024 ^ k, k) := by
  rcases hk with rfl | rfl | rfl
  · have h1' : (1024 : ℚ) < x := by rw [pow_one] at h1; exact h1
    rw [sizeParts1 h1' (by exact_mod_cast h2), pow_one]
  · exact sizeParts2 h1 h2
  · exact sizeParts3 h1 h2

theorem sizeLoop_pow1024 {k : ℕ} (hk1 : 1 ≤ k) (hk4 : k ≤ 4) :
    sizeLoop 4 ((1024 : ℚ) ^ k) 0 = (1024, k - 1) := by
  interval_cases k
  · rw [pow_one, sizeParts0 le_rfl]
  · rw [sizeParts1 (by norm_num) (by norm_num)]
    norm_num
  · rw [sizeParts2 (by norm_num) (by norm_num)]
    norm_num
  · rw [sizeParts3 (by norm_num) (by norm_num)]
    norm_num

/-- Reinterpreting a printed value strictly above `1.00` in unit `k`
lands back in unit `k` with the printed value as the scaled result. -/
theorem partsK_of_h101 {k : ℕ} {h : ℤ} (hk1 : 1 ≤ k) (hk4 : k ≤ 4)
    (h101 : 101 ≤ h) (hle : k ≤ 3 → h ≤ 102400) :
    sizeLoop 4 ((h : ℚ) / 100 * 1024 ^ k) 0 = ((h : ℚ) / 100, k) := by
  have hgt1 : (1 : ℚ) < (h : ℚ) / 100 := by
    rw [lt_div_iff₀ (by norm_num : (0 : ℚ) < 100)]
    have : ((101 : ℤ) : ℚ) ≤ (h : ℚ) := by exact_mod_cast h101
    push_cast at this
    linarith
  have hpk : (0 : ℚ) < 1024 ^ k := by positivity
  have hgt : (1024 : ℚ) ^ k < (h : ℚ) / 100 * 1024 ^ k := by nlinarith
  have hcancel : ((h : ℚ) / 100 * 1024 ^ k) / 1024 ^ k = (h : ℚ) / 100 :=
    mul_div_cancel_right₀ _ (ne_of_gt hpk)
  rcases (by omega : k ≤ 3 ∨ k = 4) with hk3 | hk4'
  · have hub : (h : ℚ) / 100 ≤ 1024 := by
      rw [div_le_iff₀ (by norm_num : (0 : ℚ) < 100)]
      have : (h : ℚ) ≤ ((102400 : ℤ) : ℚ) := by exact_mod_cast hle hk3
      push_cast at this
      linarith
    have hup : (h : ℚ) / 100 * 1024 ^ k ≤ 1024 ^ (k + 1) := by
      calc (h : ℚ) / 100 * 1024 ^ k ≤ 1024 * 1024 ^ k := by nlinarith
      _ = 1024 ^ (k + 1) := by ring
    rw [sizeParts_mid (by omega) hgt hup, hcancel]
  · subst hk4'
    rw [sizeParts4 hgt, hcancel]

/-- Reinterpreting a printed value of exactly `1.00` in unit `k ≥ 1`
drops to unit `k - 1` with scaled value exactly 1024. -/
theorem partsK_of_h100 {k : ℕ} (hk1 : 1 ≤ k) (hk4 : k ≤ 4) :
    sizeLoop 4 (((100 : ℤ) : ℚ) / 100 * 1024 ^ k) 0 = (1024, k - 1) := by
  have hq : ((100 : ℤ) : ℚ) / 100 * 1024 ^ k = 1024 ^ k := by push_cast; ring_nf
  rw [hq, sizeLoop_pow1024 hk1 hk4]

theorem fmt2_1024 : fmt2 1024 = "1024.00" := by
  have : roundHE (100 * (1024 : ℚ)) = 102400 := by
    have : (100 : ℚ) * 1024 = ((102400 : ℤ) : ℚ) := by norm_num
    rw [this, roundHE_intCast]
  unfold fmt2
  rw [this]
  rfl

/-- Classification of the loop result over the five unit intervals. -/
theorem sizeLoop_classify (x : ℚ) :
    (x ≤ 1024 ∧ sizeLoop 4 x 0 = (x, 0)) ∨
    (∃ k, 1 ≤ k ∧ k ≤ 4 ∧ sizeLoop 4 x 0 = (x / 1024 ^ k, k) ∧
      1 < x / 1024 ^ k ∧ (k ≤ 3 → x / 1024 ^ k ≤ 1024)) := by
  rcases le_or_lt x 1024 with h0 | h0
  · exact Or.inl ⟨h0, sizeParts0 h0⟩
  rcases le_or_lt x (1024 ^ 2) with h1 | h1
  · refine Or.inr ⟨1, le_rfl, by norm_num, sizeParts_mid (by norm_num) (by rw [pow_one]; exact h0) h1, ?_, ?_⟩
    · rw [lt_div_iff₀ (by positivity)]
      nlinarith
    · intro _
      rw [div_le_iff₀ (by positivity)]
      nlinarith
  rcases le_or_lt x (1024 ^ 3) with h2 | h2
  · refine Or.inr ⟨2, by norm_num, by norm_num, sizeParts_mid (by norm_num) h1 h2, ?_, ?_⟩
    · rw [lt_div_iff₀ (by positivity)]
      nlinarith
    · intro _
      rw [div_le_iff₀ (by positivity)]
      nlinarith
  rcases le_or_lt x (1024 ^ 4) with h3 | h3
  · refine Or.inr ⟨3, by norm_num, by norm_num, sizeParts_mid (by norm_num) h2 h3, ?_, ?_⟩
    · rw [lt_div_iff₀ (by positivity)]
      nlinarith
    · intro _
      rw [div_le_iff₀ (by positivity)]
      nlinarith
  · refine Or.inr ⟨4, by norm_num, le_rfl, sizeParts4 h3, ?_, fun hc => absurd hc (by norm_num)⟩
    rw [lt_div_iff₀ (by positivity)]
    nlinarith

/-- Core of the round-trip property, over the exact float value. -/
theorem roundtripQ (x : ℚ) :
    (1 ≤ (sizeLoop 4 x 0).2 → 100 ≤ roundHE (100 * (sizeLoop 4 x 0).1)) ∧
    ((sizeLoop 4 x 0).2 = 0 ∨ 101 ≤ roundHE (100 * (sizeLoop 4 x 0).1) →
      size2strQ ((roundHE (100 * (sizeLoop 4 x 0).1) : ℚ) / 100 * 1024 ^ (sizeLoop 4 x 0).2) =
        size2strQ x) ∧
    (roundHE (100 * (sizeLoop 4 x 0).1) = 100 → 1 ≤ (sizeLoop 4 x 0).2 →
      size2strQ ((roundHE (100 * (sizeLoop 4 x 0).1) : ℚ) / 100 * 1024 ^ (sizeLoop 4 x 0).2) =
        "1024.00 " ++ unitName ((sizeLoop 4 x 0).2 - 1)) := by
  rcases sizeLoop_classify x with ⟨hle, hp⟩ | ⟨k, hk1, hk4, hp, hf1, hf2⟩
  · rw [hp]
    dsimp only
    refine ⟨by omega, ?_, fun _ hcon => absurd hcon (by omega)⟩
    intro _
    have hub : (roundHE (100 * x) : ℚ) / 100 ≤ 1024 := by
      rw [div_le_iff₀ (by norm_num : (0 : ℚ) < 100)]
      have : roundHE (100 * x) ≤ 102400 := roundHE_le_102400 hle
      have h2 : ((roundHE (100 * x) : ℤ) : ℚ) ≤ ((102400 : ℤ) : ℚ) := by exact_mod_cast this
      push_cast at h2
      linarith
    unfold size2strQ
    rw [pow_zero, mul_one, sizeParts0 hub, hp]
    dsimp only
    rw [fmt2_congr (roundHE_cancel (roundHE (100 * x)))]
  · rw [hp]
    dsimp only
    refine ⟨fun _ => roundHE_ge_100 hf1, ?_, ?_⟩
    · intro hor
      have h101 : 101 ≤ roundHE (100 * (x / 1024 ^ k)) := by
        rcases hor with h0 | h101
        · omega
        · exact h101
      have hle' : k ≤ 3 → roundHE (100 * (x / 1024 ^ k)) ≤ 102400 :=
        fun hk3 => roundHE_le_102400 (hf2 hk3)
      unfold size2strQ
      rw [partsK_of_h101 hk1 hk4 h101 hle', hp]
      dsimp only
      rw [fmt2_congr (roundHE_cancel (roundHE (100 * (x / 1024 ^ k))))]
    · intro h100 _
      unfold size2strQ
      rw [h100, partsK_of_h100 hk1 hk4]
      dsimp only
      rw [fmt2_1024]
      have hs : ("1024.00" : String) ++ " " = "1024.00 " := rfl
      rw [hs]

end RoundtripLemmas
section ClaimC7

attribute [local semireducible] Rat.mul Rat.inv Rat.sub Rat.add

/-- C7 counterexample: at 1025 bytes the printed value is `"1.00 KB"`;
reinterpreting `1.00` in KB gives 1024 bytes, which formats as
`"1024.00 B"` — a different string (the quantity is the same, but the
strict `>` comparison assigns it the lower unit). -/
theorem size2str_roundtrip_1025 :
    size2str 1025 = "1.00 KB" ∧
    size2strQ (sizeValue 1025 * 1024 ^ sizeUnitIdx 1025) = "1024.00 B" ∧
    size2strQ (sizeValue 1025 * 1024 ^ sizeUnitIdx 1025) ≠ size2str 1025 := by
  exact ⟨by decide, by decide, by decide⟩

/-- C7 (amended): re-formatting the printed value of `size2str b`
(interpreted in its reported unit) is idempotent whenever the unit is B
or the printed value exceeds `1.00`; when the printed value is exactly
`1.00` of a unit above B (the only remaining case, since a non-B unit
always prints at least `1.00`), re-formatting renders the same quantity
one unit lower, as `"1024.00"` of that unit. -/
theorem size2str_roundtrip (b : ℕ) :
    (1 ≤ sizeUnitIdx b → 100 ≤ sizeHundredths b) ∧
    (sizeUnitIdx b = 0 ∨ 101 ≤ sizeHundredths b →
      size2strQ (sizeValue b * 1024 ^ sizeUnitIdx b) = size2str b) ∧
    (sizeHundredths b = 100 → 1 ≤ sizeUnitIdx b →
      size2strQ (sizeValue b * 1024 ^ sizeUnitIdx b) =
        "1024.00 " ++ unitName (sizeUnitIdx b - 1)) := by
  unfold sizeUnitIdx sizeHundredths sizeValue size2str
  exact roundtripQ ((toFloat24 b : ℕ) : ℚ)

/-- Witness for C7: the same-string branch at 1536 bytes and the
unit-boundary branch at 1025 bytes. -/
theorem size2str_roundtrip_witness :
    size2strQ (sizeValue 1536 * 1024 ^ sizeUnitIdx 1536) = size2str 1536 ∧
    size2strQ (sizeValue 1025 * 1024 ^ sizeUnitIdx 1025) =
      "1024.00 " ++ unitName (sizeUnitIdx 1025 - 1) :=
  ⟨(size2str_roundtrip 1536).2.1 (Or.inr (by decide)),
   (size2str_roundtrip 1025).2.2 (by decide) (by decide)⟩

end ClaimC7
/-! ## Lemmas about `trimstr` -/

section TrimLemmas

/-- An index found by `findIdx?` is inside the list. -/
theorem findIdx?_lt_length {α : Type} {p : α → Bool} :
    ∀ {l : List α} {i : ℕ}, l.findIdx? p = some i → i < l.length := by
  intro l
  induction l with
  | nil => intro i h; simp [List.findIdx?_nil] at h
  | cons x xs ih =>
    intro i h
    rw [List.findIdx?_cons] at h
    by_cases hp : p x = true
    · rw [if_pos hp] at h
      cases h
      simp
    · rw [if_neg hp, List.findIdx?_succ] at h
      cases hfx : xs.findIdx? p with
      | none => rw [hfx] at h; simp at h
      | some j =>
        rw [hfx] at h
        simp only [Option.map_some', Option.some.injEq] at h
        have := ih hfx
        simp only [List.length_cons]
        omega

/-- A list with a `findIdx?` hit cannot be all-misses in reverse. -/
theorem findIdx?_reverse_isSome {α : Type} {p : α → Bool} {l : List α} {i : ℕ}
    (h : l.findIdx? p = some i) : l.reverse.findIdx? p ≠ none := by
  intro hc
  rw [List.findIdx?_eq_none_iff] at hc
  have : l.findIdx? p = none :=
    List.findIdx?_eq_none_iff.mpr fun x hx => hc x (List.mem_reverse.mpr hx)
  rw [this] at h
  exact Option.noConfusion h

/-- Dropping a leading whitespace character does not change the trim. -/
theorem trimstrList_cons_ws {c : Char} {t : List Char} (hc : isTrimWs c = true) :
    trimstrList (c :: t) = trimstrList t := by
  have hW : (!isTrimWs c) = false := by simp [hc]
  unfold trimstrList
  rw [List.findIdx?_cons]
  simp only [hW, Bool.false_eq_true, if_false, List.findIdx?_succ]
  rw [List.reverse_cons, List.findIdx?_append]
  have h1 : [c].findIdx? (fun x => !isTrimWs x) = none := by
    rw [List.findIdx?_cons]
    simp [hW, List.findIdx?_nil]
  rw [h1]
  simp only [Option.map_none', Option.or_none]
  cases hft : t.findIdx? (fun x => !isTrimWs x) with
  | none => rfl
  | some j =>
    cases hfr : t.reverse.findIdx? (fun x => !isTrimWs x) with
    | none => exact absurd hfr (findIdx?_reverse_isSome hft)
    | some k =>
      simp only [Option.map_some']
      rw [List.drop_succ_cons]
      congr 1
      simp only [List.length_cons]
      omega

/-- Dropping a trailing whitespace character does not change the trim. -/
theorem trimstrList_snoc_ws {c : Char} {t : List Char} (hc : isTrimWs c = true) :
    trimstrList (t ++ [c]) = trimstrList t := by
  have hW : (!isTrimWs c) = false := by simp [hc]
  unfold trimstrList
  rw [List.findIdx?_append]
  have h1 : [c].findIdx? (fun x => !isTrimWs x) = none := by
    rw [List.findIdx?_cons]
    simp [hW, List.findIdx?_nil]
  rw [h1]
  simp only [Option.map_none', Option.or_none]
  rw [List.reverse_append]
  simp only [List.reverse_cons, List.reverse_nil, List.nil_append, List.singleton_append]
  rw [List.findIdx?_cons]
  simp only [hW, Bool.false_eq_true, if_false, List.findIdx?_succ]
  cases hft : t.findIdx? (fun x => !isTrimWs x) with
  | none => rfl
  | some i =>
    cases hfr : t.reverse.findIdx? (fun x => !isTrimWs x) with
    | none => exact absurd hfr (findIdx?_reverse_isSome hft)
    | some k =>
      simp only [Option.map_some']
      have hi : i < t.length := findIdx?_lt_length hft
      rw [List.drop_append_of_le_length (le_of_lt hi)]
      rw [List.take_append_eq_append_take]
      simp only [List.length_append, List.length_cons, List.length_nil, List.length_drop]
      have hlen : t.length + 0 + 1 - 1 - (k + 1) - i + 1 - (t.length - i) = 0 := by omega
      rw [hlen]
      simp only [List.take_zero, List.append_nil]
      congr 1
      omega

/-- A list whose first and last characters are not whitespace is its own
trim. -/
theorem trimstrList_clean {l : List Char}
    (h1 : ∀ c, l.head? = some c → isTrimWs c = false)
    (h2 : ∀ c, l.getLast? = some c → isTrimWs c = false) :
    trimstrList l = l := by
  cases l with
  | nil => rfl
  | cons c t =>
    have hc : isTrimWs c = false := h1 c rfl
    have hf : (c :: t).findIdx? (fun x => !isTrimWs x) = some 0 := by
      rw [List.findIdx?_cons]
      simp [hc]
    cases hgl : (c :: t).getLast? with
    | none => simp at hgl
    | some d =>
      have hdw : isTrimWs d = false := h2 d hgl
      have hrev : (c :: t).reverse.head? = some d := by
        rw [List.head?_reverse, hgl]
      obtain ⟨r', hr'⟩ : ∃ r', (c :: t).reverse = d :: r' := by
        cases hrv : (c :: t).reverse with
        | nil => rw [hrv] at hrev; simp at hrev
        | cons a b =>
          rw [hrv] at hrev
          simp only [List.head?_cons, Option.some.injEq] at hrev
          exact ⟨b, by rw [hrev]⟩
      have hfr : (c :: t).reverse.findIdx? (fun x => !isTrimWs x) = some 0 := by
        rw [hr', List.findIdx?_cons]
        simp [hdw]
      unfold trimstrList
      rw [hf, hfr]
      dsimp only
      have hamt : (c :: t).length - 1 - 0 - 0 + 1 = (c :: t).length := by
        simp only [List.length_cons]
        omega
      rw [List.drop_zero, hamt, List.take_length]

/-- Trimming ignores the leading whitespace block. -/
theorem trimstrList_ltrim (l : List Char) :
    trimstrList l = trimstrList (l.dropWhile isTrimWs) := by
  induction l with
  | nil => rfl
  | cons c t ih =>
    by_cases hc : isTrimWs c = true
    · rw [List.dropWhile_cons, if_pos hc]
      exact (trimstrList_cons_ws hc).trans ih
    · rw [List.dropWhile_cons, if_neg hc]

/-- Trimming ignores the trailing whitespace block. -/
theorem trimstrList_rtrim (l : List Char) :
    trimstrList l = trimstrList ((l.reverse.dropWhile isTrimWs).reverse) := by
  induction l using List.reverseRecOn with
  | nil => rfl
  | append_singleton t c ih =>
    by_cases hc : isTrimWs c = true
    · have hco : (t ++ [c]).reverse.dropWhile isTrimWs = t.reverse.dropWhile isTrimWs := by
        rw [List.reverse_append]
        simp only [List.reverse_cons, List.reverse_nil, List.nil_append, List.singleton_append]
        rw [List.dropWhile_cons, if_pos hc]
      rw [hco]
      exact (trimstrList_snoc_ws hc).trans ih
    · have hco : (t ++ [c]).reverse.dropWhile isTrimWs = (t ++ [c]).reverse := by
        rw [List.reverse_append]
        simp only [List.reverse_cons, List.reverse_nil, List.nil_append, List.singleton_append]
        rw [List.dropWhile_cons, if_neg hc]
      rw [hco, List.reverse_reverse]

/-- The head of the canonical two-sided trim is not whitespace. -/
theorem rtrim_ltrim_head {l : List Char} {c : Char}
    (hc : (((l.dropWhile isTrimWs).reverse.dropWhile isTrimWs).reverse).head? = some c) :
    isTrimWs c = false := by
  have hpre : ((l.dropWhile isTrimWs).reverse.dropWhile isTrimWs).reverse <+:
      l.dropWhile isTrimWs := by
    rw [← List.reverse_suffix, List.reverse_reverse]
    exact List.dropWhile_suffix isTrimWs
  obtain ⟨t', ht'⟩ := hpre
  have hm : (l.dropWhile isTrimWs).head? = some c := by
    rw [← ht', List.head?_append, hc]
    rfl
  have hh := List.head?_dropWhile_not isTrimWs l
  rw [hm] at hh
  exact hh

/-- The last character of the canonical two-sided trim is not
whitespace. -/
theorem rtrim_ltrim_getLast {l : List Char} {c : Char}
    (hc : (((l.dropWhile isTrimWs).reverse.dropWhile isTrimWs).reverse).getLast? = some c) :
    isTrimWs c = false := by
  rw [List.getLast?_reverse] at hc
  have hh := List.head?_dropWhile_not isTrimWs (l.dropWhile isTrimWs).reverse
  rw [hc] at hh
  exact hh

/-- `trimstr`'s index arithmetic computes exactly the canonical
two-sided whitespace trim. -/
theorem trimstrList_eq (l : List Char) :
    trimstrList l = ((l.dropWhile isTrimWs).reverse.dropWhile isTrimWs).reverse := by
  have h1 := trimstrList_ltrim l
  have h2 := trimstrList_rtrim (l.dropWhile isTrimWs)
  have h3 : trimstrList (((l.dropWhile isTrimWs).reverse.dropWhile isTrimWs).reverse) =
      ((l.dropWhile isTrimWs).reverse.dropWhile isTrimWs).reverse := by
    apply trimstrList_clean
    · exact fun c hc => rtrim_ltrim_head hc
    · exact fun c hc => rtrim_ltrim_getLast hc
  rw [h1, h2, h3]

end TrimLemmas
section ClaimC5

/-- C5: `trimstr` returns its input with all leading and trailing
whitespace (space, tab, newline) removed — equal to the canonical
two-sided trim `trimSpec` — so the result never starts or ends with
whitespace; an all-whitespace input and a null input yield exactly the
empty string. -/
theorem trimstr_spec :
    trimstr none = "" ∧
    (∀ s : String, trimstr (some s) = trimSpec (some s)) ∧
    (∀ (s : String) (c : Char),
      (trimstr (some s)).data.head? = some c → isTrimWs c = false) ∧
    (∀ (s : String) (c : Char),
      (trimstr (some s)).data.getLast? = some c → isTrimWs c = false) ∧
    (∀ s : String, (∀ c ∈ s.data, isTrimWs c = true) → trimstr (some s) = "") := by
  refine ⟨rfl, ?_, ?_, ?_, ?_⟩
  · intro s
    show String.mk (trimstrList s.data) = String.mk _
    rw [trimstrList_eq]
  · intro s c hc
    rw [show (trimstr (some s)).data = trimstrList s.data from rfl, trimstrList_eq] at hc
    exact rtrim_ltrim_head hc
  · intro s c hc
    rw [show (trimstr (some s)).data = trimstrList s.data from rfl, trimstrList_eq] at hc
    exact rtrim_ltrim_getLast hc
  · intro s hws
    have hnone : s.data.findIdx? (fun c => !isTrimWs c) = none :=
      List.findIdx?_eq_none_iff.mpr fun x hx => by simp [hws x hx]
    show String.mk (trimstrList s.data) = String.mk []
    unfold trimstrList
    rw [hnone]

/-- Witness for C5: concrete trims exercising each conjunct. -/
theorem trimstr_spec_witness :
    trimstr (some " a ") = trimSpec (some " a ") ∧
    isTrimWs 'a' = false ∧
    isTrimWs 'b' = false ∧
    trimstr (some " \t\n") = "" :=
  ⟨trimstr_spec.2.1 " a ",
   trimstr_spec.2.2.1 " a " 'a' (by decide),
   trimstr_spec.2.2.2.1 " b " 'b' (by decide),
   trimstr_spec.2.2.2.2 " \t\n" (by decide)⟩

end ClaimC5
/-! ## Lemmas about the list joins, and Claim C10 -/

section JoinLemmas

theorem string_join_foldl (t : List String) :
    ∀ a : String, t.foldl (· ++ ·) a = a ++ String.join t := by
  induction t with
  | nil => intro a; exact (String.append_empty a).symm
  | cons b bs ih =>
    intro a
    show bs.foldl (· ++ ·) (a ++ b) = a ++ String.join (b :: bs)
    rw [ih (a ++ b), String.append_assoc]
    congr 1
    show b ++ String.join bs = String.join (b :: bs)
    have hj : String.join (b :: bs) = bs.foldl (· ++ ·) ("" ++ b) := rfl
    rw [hj, ih ("" ++ b), String.empty_append]

theorem join_cons (a : String) (t : List String) :
    String.join (a :: t) = a ++ String.join t := by
  have hj : String.join (a :: t) = t.foldl (· ++ ·) ("" ++ a) := rfl
  rw [hj, string_join_foldl, String.empty_append]

theorem list2str_shift (d : String) (t : List String) :
    ∀ a b : String, t.foldl (fun res s => res ++ d ++ s) (a ++ b) =
      a ++ t.foldl (fun res s => res ++ d ++ s) b := by
  induction t with
  | nil => intro a b; rfl
  | cons z zs ih =>
    intro a b
    show zs.foldl _ (a ++ b ++ d ++ z) = a ++ zs.foldl _ (b ++ d ++ z)
    have he : a ++ b ++ d ++ z = a ++ (b ++ d ++ z) := by
      simp [String.append_assoc]
    rw [he]
    exact ih a (b ++ d ++ z)

theorem list2str_cons_cons (x y : String) (t : List String) (d : String) :
    list2str (x :: y :: t) d = x ++ d ++ list2str (y :: t) d := by
  show t.foldl _ ("" ++ x ++ d ++ y) = x ++ d ++ t.foldl _ ("" ++ y)
  have he : "" ++ x ++ d ++ y = (x ++ d) ++ ("" ++ y) := by
    simp [String.append_assoc, String.empty_append]
  rw [he, list2str_shift]

/-- `list2str` is the canonical delimiter join: items in order with one
delimiter between consecutive items. -/
theorem list2str_join :
    ∀ (l : List String) (d : String), list2str l d = String.join (List.intersperse d l)
  | [], _ => rfl
  | [_], _ => rfl
  | x :: y :: t, d => by
    rw [list2str_cons_cons, list2str_join (y :: t) d, List.intersperse_cons_cons,
        join_cons, join_cons, String.append_assoc]

/-- `deplist2str` is the same join after rendering each dependency. -/
theorem deplist2str_join {Dep : Type} (f : Dep → String) :
    ∀ (l : List Dep) (d : String),
      deplist2str f l d = String.join (List.intersperse d (l.map f))
  | [], _ => rfl
  | [x], _ => by
    show f x = String.join (List.intersperse _ [f x])
    exact (String.empty_append (f x)).symm
  | x :: y :: t, d => by
    show f x ++ d ++ deplist2str f (y :: t) d = _
    simp only [List.map_cons]
    rw [deplist2str_join f (y :: t) d, List.map_cons,
        List.intersperse_cons_cons, join_cons, join_cons, String.append_assoc]

end JoinLemmas

section ClaimC10

/-- C10: `list2str` and `deplist2str` return `""` for the empty (null)
list, the bare item for a singleton, and otherwise the items in list
order with exactly one delimiter between consecutive items (never
leading or trailing) — i.e. the canonical interspersed join. -/
theorem list_joins_spec :
    (∀ d : String, list2str [] d = "") ∧
    (∀ d x : String, list2str [x] d = x) ∧
    (∀ (d : String) (l : List String), list2str l d = String.join (List.intersperse d l)) ∧
    (∀ (Dep : Type) (f : Dep → String) (d : String), deplist2str f [] d = "") ∧
    (∀ (Dep : Type) (f : Dep → String) (d : String) (x : Dep), deplist2str f [x] d = f x) ∧
    (∀ (Dep : Type) (f : Dep → String) (d : String) (l : List Dep),
      deplist2str f l d = String.join (List.intersperse d (l.map f))) :=
  ⟨fun _ => rfl,
   fun _ x => String.empty_append x,
   fun d l => list2str_join l d,
   fun _ _ _ => rfl,
   fun _ _ _ _ => rfl,
   fun _ f d l => deplist2str_join f l d⟩

end ClaimC10
/-! ## Sample inputs for concrete instantiations -/

/-- A concrete package handle (dependencies rendered by `id`). -/
def samplePkg : PkgHandle String :=
  { name := some "pcurses", url := none, packager := some " someone ", desc := some "d",
    version := some "2.0", dbname := some "extra", builddate := 0, arch := some "x86_64",
    size := 1536, isize := 2048, licenses := ["GPL"], groups := [],
    optdepends := [], conflicts := [], provides := [], replaces := [],
    depends := ["curses"], hasSig := false }

/-- A concrete local-database entry with an older version, installed
explicitly. -/
def sampleLocal : LocalPkg :=
  { version := "1.0", reason := 0, requiredby := ["alpha"], optionalfor := [] }

/-- A concrete local-database entry recorded as a dependency install. -/
def sampleLocalDep : LocalPkg :=
  { version := "2.0", reason := 1, requiredby := [], optionalfor := [] }

/-- A concrete stand-in for the external version comparison: equal
strings compare equal, anything else counts as newer. -/
def sampleVercmp : String → String → ℤ :=
  fun a b => if a = b then 0 else 1

/-- A concrete stand-in for `std::ctime`. -/
def sampleCtime : ℤ → String :=
  fun _ => "Thu Jan  1 00:00:00 1970\n"

/-! ## Claim C2 -/

section ClaimC2

/-- C2: the constructor sets the update state to `USE_NOTINSTALLED` when
the local database has no entry for the package; otherwise to
`USE_UPDATEAVAILABLE` exactly when the external version comparison of
(version, local version) is strictly positive, and to `USE_UPTODATE`
otherwise (which covers equal version strings, where the comparison
returns 0). -/
theorem mkPackage_updatestate {Dep : Type} (vercmp : String → String → ℤ) (f : Dep → String)
    (pkg : PkgHandle Dep) (localpkg : Option LocalPkg) :
    (localpkg = none →
      (mkPackage vercmp f pkg localpkg).updatestate = USE_NOTINSTALLED) ∧
    (∀ lp, localpkg = some lp →
      (mkPackage vercmp f pkg localpkg).updatestate =
        if 0 < vercmp (trimstr pkg.version) lp.version then USE_UPDATEAVAILABLE
        else USE_UPTODATE) := by
  constructor
  · rintro rfl
    rfl
  · rintro lp rfl
    rfl

/-- Witness for C2: no local entry, and an entry with an older version
under the sample comparison. -/
theorem mkPackage_updatestate_witness :
    (mkPackage sampleVercmp id samplePkg none).updatestate = USE_NOTINSTALLED ∧
    (mkPackage sampleVercmp id samplePkg (some sampleLocal)).updatestate =
      USE_UPDATEAVAILABLE := by
  constructor
  · exact (mkPackage_updatestate sampleVercmp id samplePkg none).1 rfl
  · have h := (mkPackage_updatestate sampleVercmp id samplePkg (some sampleLocal)).2
      sampleLocal rfl
    rw [h]
    decide

end ClaimC2

/-! ## Claim C3 -/

section ClaimC3

/-- C3: the constructor sets the install reason to `IRE_NOTINSTALLED`
when there is no local entry, to `IRE_ASDEPS` when the local entry's
recorded reason is the dependency reason, and to `IRE_EXPLICIT` for any
other recorded reason. -/
theorem mkPackage_reason {Dep : Type} (vercmp : String → String → ℤ) (f : Dep → String)
    (pkg : PkgHandle Dep) (localpkg : Option LocalPkg) :
    (localpkg = none → (mkPackage vercmp f pkg localpkg).reason = IRE_NOTINSTALLED) ∧
    (∀ lp, localpkg = some lp → lp.reason = ALPM_PKG_REASON_DEPEND →
      (mkPackage vercmp f pkg localpkg).reason = IRE_ASDEPS) ∧
    (∀ lp, localpkg = some lp → lp.reason ≠ ALPM_PKG_REASON_DEPEND →
      (mkPackage vercmp f pkg localpkg).reason = IRE_EXPLICIT) := by
  refine ⟨?_, ?_, ?_⟩
  · rintro rfl
    rfl
  · rintro lp rfl hdep
    show (if lp.reason = ALPM_PKG_REASON_DEPEND then IRE_ASDEPS else IRE_EXPLICIT) = IRE_ASDEPS
    rw [if_pos hdep]
  · rintro lp rfl hdep
    show (if lp.reason = ALPM_PKG_REASON_DEPEND then IRE_ASDEPS else IRE_EXPLICIT) = IRE_EXPLICIT
    rw [if_neg hdep]

/-- Witness for C3: all three branches at concrete inputs. -/
theorem mkPackage_reason_witness :
    (mkPackage sampleVercmp id samplePkg none).reason = IRE_NOTINSTALLED ∧
    (mkPackage sampleVercmp id samplePkg (some sampleLocalDep)).reason = IRE_ASDEPS ∧
    (mkPackage sampleVercmp id samplePkg (some sampleLocal)).reason = IRE_EXPLICIT :=
  ⟨(mkPackage_reason sampleVercmp id samplePkg none).1 rfl,
   (mkPackage_reason sampleVercmp id samplePkg (some sampleLocalDep)).2.1
     sampleLocalDep rfl (by decide),
   (mkPackage_reason sampleVercmp id samplePkg (some sampleLocal)).2.2
     sampleLocal rfl (by decide)⟩

end ClaimC3

/-! ## Claim C6 -/

section ClaimC6

/-- The decorated version string is never the bare version string. -/
theorem version_decorated_ne (v lv : String) :
    v ++ " (local: " ++ lv ++ ")" ≠ v := by
  intro h
  have hlen := congrArg String.length h
  have h9 : (" (local: " : String).length = 9 := rfl
  have h1 : (")" : String).length = 1 := rfl
  simp only [String.length_append, h9, h1] at hlen
  omega

/-- C6: `getversion` of a constructed package returns
`version ++ " (local: " ++ localversion ++ ")"` exactly in the
`USE_UPDATEAVAILABLE` state (the decorated string never coincides with
the bare one), and the bare stored version string in every other
state. -/
theorem getversion_spec {Dep : Type} (vercmp : String → String → ℤ) (f : Dep → String)
    (pkg : PkgHandle Dep) (localpkg : Option LocalPkg) :
    ((mkPackage vercmp f pkg localpkg).updatestate = USE_UPDATEAVAILABLE →
      getversion (mkPackage vercmp f pkg localpkg) =
        (mkPackage vercmp f pkg localpkg).version ++ " (local: " ++
          (mkPackage vercmp f pkg localpkg).localversion ++ ")") ∧
    ((mkPackage vercmp f pkg localpkg).updatestate ≠ USE_UPDATEAVAILABLE →
      getversion (mkPackage vercmp f pkg localpkg) =
        (mkPackage vercmp f pkg localpkg).version) ∧
    (mkPackage vercmp f pkg localpkg).version ++ " (local: " ++
        (mkPackage vercmp f pkg localpkg).localversion ++ ")" ≠
      (mkPackage vercmp f pkg localpkg).version := by
  refine ⟨?_, ?_, version_decorated_ne _ _⟩
  · intro h
    unfold getversion
    rw [if_pos h]
  · intro h
    unfold getversion
    rw [if_neg h]

/-- Witness for C6: an update-available package shows both versions; a
not-installed package shows the bare version. -/
theorem getversion_spec_witness :
    getversion (mkPackage sampleVercmp id samplePkg (some sampleLocal)) =
      (mkPackage sampleVercmp id samplePkg (some sampleLocal)).version ++ " (local: " ++
        (mkPackage sampleVercmp id samplePkg (some sampleLocal)).localversion ++ ")" ∧
    getversion (mkPackage sampleVercmp id samplePkg none) =
      (mkPackage sampleVercmp id samplePkg none).version :=
  ⟨(getversion_spec sampleVercmp id samplePkg (some sampleLocal)).1 (by decide),
   (getversion_spec sampleVercmp id samplePkg none).2.1 (by decide)⟩

end ClaimC6
/-! ## Dispatcher lemmas, Claims C4 and C8 -/

section DispatchLemmas

/-- The constructor only ever assigns one of the three reason codes. -/
theorem mkPackage_reason_mem {Dep : Type} (vercmp : String → String → ℤ) (f : Dep → String)
    (pkg : PkgHandle Dep) (localpkg : Option LocalPkg) :
    (mkPackage vercmp f pkg localpkg).reason = IRE_NOTINSTALLED ∨
    (mkPackage vercmp f pkg localpkg).reason = IRE_EXPLICIT ∨
    (mkPackage vercmp f pkg localpkg).reason = IRE_ASDEPS := by
  cases localpkg with
  | none => exact Or.inl rfl
  | some lp =>
    by_cases h : lp.reason = ALPM_PKG_REASON_DEPEND
    · refine Or.inr (Or.inr ?_)
      show (if lp.reason = ALPM_PKG_REASON_DEPEND then IRE_ASDEPS else IRE_EXPLICIT) = IRE_ASDEPS
      rw [if_pos h]
    · refine Or.inr (Or.inl ?_)
      show (if lp.reason = ALPM_PKG_REASON_DEPEND then IRE_ASDEPS else IRE_EXPLICIT) = IRE_EXPLICIT
      rw [if_neg h]

/-- The constructor only ever assigns one of the three state codes. -/
theorem mkPackage_updatestate_mem {Dep : Type} (vercmp : String → String → ℤ) (f : Dep → String)
    (pkg : PkgHandle Dep) (localpkg : Option LocalPkg) :
    (mkPackage vercmp f pkg localpkg).updatestate = USE_NOTINSTALLED ∨
    (mkPackage vercmp f pkg localpkg).updatestate = USE_UPDATEAVAILABLE ∨
    (mkPackage vercmp f pkg localpkg).updatestate = USE_UPTODATE := by
  cases localpkg with
  | none => exact Or.inl rfl
  | some lp =>
    by_cases h : 0 < vercmp (trimstr pkg.version) lp.version
    · refine Or.inr (Or.inl ?_)
      show (if 0 < vercmp (trimstr pkg.version) lp.version then USE_UPDATEAVAILABLE
        else USE_UPTODATE) = USE_UPDATEAVAILABLE
      rw [if_pos h]
    · refine Or.inr (Or.inr ?_)
      show (if 0 < vercmp (trimstr pkg.version) lp.version then USE_UPDATEAVAILABLE
        else USE_UPTODATE) = USE_UPTODATE
      rw [if_neg h]

/-- A reason code inside the enumerated set always renders. -/
theorem getreason_ok_of_mem {p : Package}
    (h : p.reason = IRE_NOTINSTALLED ∨ p.reason = IRE_EXPLICIT ∨ p.reason = IRE_ASDEPS) :
    ∃ s, getreason p = .ok s := by
  unfold getreason
  rcases h with h | h | h <;> rw [h] <;> exact ⟨_, rfl⟩

/-- A state code inside the enumerated set always renders. -/
theorem getupdatestate_ok_of_mem {p : Package}
    (h : p.updatestate = USE_NOTINSTALLED ∨ p.updatestate = USE_UPDATEAVAILABLE ∨
      p.updatestate = USE_UPTODATE) :
    ∃ s, getupdatestate p = .ok s := by
  unfold getupdatestate
  rcases h with h | h | h <;> rw [h] <;> exact ⟨_, rfl⟩

end DispatchLemmas

section ClaimC4

/-- C4: `getattr` returns `""` for `A_NONE` on every package; on any
attribute code outside the enumerated set it raises the
invalid-attribute error; `getoffattr` raises that same error for every
string-only attribute such as `A_NAME`, succeeding with a numeric value
exactly for `A_BUILDDATE`, `A_SIZE` and `A_ISIZE`. -/
theorem getattr_spec (ctimeF : ℤ → String) (p : Package) :
    getattr ctimeF p A_NONE = .ok "" ∧
    (∀ a : ℕ, a ∉ attrCodes → getattr ctimeF p a = .error "Invalid attribute passed.") ∧
    getoffattr p A_NAME = .error "Invalid attribute passed." ∧
    (∀ a : ℕ, (∃ v, getoffattr p a = .ok v) ↔
      (a = A_BUILDDATE ∨ a = A_SIZE ∨ a = A_ISIZE)) := by
  refine ⟨rfl, ?_, rfl, ?_⟩
  · intro a ha
    have h23 : 23 ≤ a := by
      by_contra hlt
      push_neg at hlt
      apply ha
      interval_cases a <;> decide
    obtain ⟨m, rfl⟩ : ∃ m, a = m + 23 := ⟨a - 23, by omega⟩
    rfl
  · intro a
    constructor
    · rintro ⟨v, hv⟩
      unfold getoffattr at hv
      split_ifs at hv with h1 h2 h3
      · exact Or.inl h1
      · exact Or.inr (Or.inl h2)
      · exact Or.inr (Or.inr h3)
    · rintro (rfl | rfl | rfl) <;> exact ⟨_, rfl⟩

/-- Witness for C4 at a concrete package and attribute codes. -/
theorem getattr_spec_witness :
    getattr sampleCtime (mkPackage sampleVercmp id samplePkg none) A_NONE = .ok "" ∧
    getattr sampleCtime (mkPackage sampleVercmp id samplePkg none) 23 =
      .error "Invalid attribute passed." ∧
    getoffattr (mkPackage sampleVercmp id samplePkg none) A_NAME =
      .error "Invalid attribute passed." ∧
    (∃ v, getoffattr (mkPackage sampleVercmp id samplePkg none) A_SIZE = .ok v) :=
  ⟨(getattr_spec sampleCtime (mkPackage sampleVercmp id samplePkg none)).1,
   (getattr_spec sampleCtime (mkPackage sampleVercmp id samplePkg none)).2.1 23 (by decide),
   (getattr_spec sampleCtime (mkPackage sampleVercmp id samplePkg none)).2.2.1,
   ((getattr_spec sampleCtime (mkPackage sampleVercmp id samplePkg none)).2.2.2 A_SIZE).mpr
     (Or.inr (Or.inl rfl))⟩

end ClaimC4

section ClaimC8

/-- C8: `getreason` maps the three reason codes to `"not installed"`,
`"explicit"`, `"as dependency"`, and `getupdatestate` maps the three
state codes to `"not installed"`, `"update available"`, `"up to date"`;
each raises its error only for a code outside the enumerated set; the
constructor always assigns codes inside the sets, so the error branches
are unreachable for constructed packages, and `getattr` succeeds on
every enumerated attribute of a constructed package. -/
theorem reason_state_accessors_spec :
    (∀ p : Package, p.reason = IRE_NOTINSTALLED → getreason p = .ok "not installed") ∧
    (∀ p : Package, p.reason = IRE_EXPLICIT → getreason p = .ok "explicit") ∧
    (∀ p : Package, p.reason = IRE_ASDEPS → getreason p = .ok "as dependency") ∧
    (∀ p : Package, p.reason ≠ IRE_NOTINSTALLED → p.reason ≠ IRE_EXPLICIT →
      p.reason ≠ IRE_ASDEPS → getreason p = .error "no package install reason.") ∧
    (∀ p : Package, p.updatestate = USE_NOTINSTALLED → getupdatestate p = .ok "not installed") ∧
    (∀ p : Package, p.updatestate = USE_UPDATEAVAILABLE →
      getupdatestate p = .ok "update available") ∧
    (∀ p : Package, p.updatestate = USE_UPTODATE → getupdatestate p = .ok "up to date") ∧
    (∀ p : Package, p.updatestate ≠ USE_NOTINSTALLED → p.updatestate ≠ USE_UPDATEAVAILABLE →
      p.updatestate ≠ USE_UPTODATE → getupdatestate p = .error "no package update state.") ∧
    (∀ (Dep : Type) (vercmp : String → String → ℤ) (f : Dep → String) (pkg : PkgHandle Dep)
      (localpkg : Option LocalPkg),
      (∃ s, getreason (mkPackage vercmp f pkg localpkg) = .ok s) ∧
      (∃ s, getupdatestate (mkPackage vercmp f pkg localpkg) = .ok s)) ∧
    (∀ (Dep : Type) (vercmp : String → String → ℤ) (f : Dep → String) (pkg : PkgHandle Dep)
      (localpkg : Option LocalPkg) (ctimeF : ℤ → String) (a : ℕ), a ∈ attrCodes →
      ∃ s, getattr ctimeF (mkPackage vercmp f pkg localpkg) a = .ok s) := by
  refine ⟨?_, ?_, ?_, ?_, ?_, ?_, ?_, ?_, ?_, ?_⟩
  · intro p h
    unfold getreason
    rw [h]
    rfl
  · intro p h
    unfold getreason
    rw [h]
    rfl
  · intro p h
    unfold getreason
    rw [h]
    rfl
  · intro p h0 h1 h2
    unfold getreason
    rw [if_neg h0, if_neg h1, if_neg h2]
  · intro p h
    unfold getupdatestate
    rw [h]
    rfl
  · intro p h
    unfold getupdatestate
    rw [h]
    rfl
  · intro p h
    unfold getupdatestate
    rw [h]
    rfl
  · intro p h0 h1 h2
    unfold getupdatestate
    rw [if_neg h0, if_neg h1, if_neg h2]
  · intro Dep vercmp f pkg localpkg
    exact ⟨getreason_ok_of_mem (mkPackage_reason_mem vercmp f pkg localpkg),
      getupdatestate_ok_of_mem (mkPackage_updatestate_mem vercmp f pkg localpkg)⟩
  · intro Dep vercmp f pkg localpkg ctimeF a ha
    have hr := getreason_ok_of_mem (mkPackage_reason_mem vercmp f pkg localpkg)
    have hu := getupdatestate_ok_of_mem (mkPackage_updatestate_mem vercmp f pkg localpkg)
    have ha' : a = 0 ∨ a = 1 ∨ a = 2 ∨ a = 3 ∨ a = 4 ∨ a = 5 ∨ a = 6 ∨ a = 7 ∨ a = 8 ∨
        a = 9 ∨ a = 10 ∨ a = 11 ∨ a = 12 ∨ a = 13 ∨ a = 14 ∨ a = 15 ∨ a = 16 ∨ a = 17 ∨
        a = 18 ∨ a = 19 ∨ a = 20 ∨ a = 21 ∨ a = 22 := by
      simpa only [attrCodes, A_NAME, A_VERSION, A_URL, A_REPO, A_PACKAGER, A_BUILDDATE,
        A_INSTALLSTATE, A_UPDATESTATE, A_DESC, A_ARCH, A_LICENSES, A_GROUPS, A_DEPENDS,
        A_OPTDEPENDS, A_CONFLICTS, A_PROVIDES, A_REPLACES, A_REQUIREDBY, A_OPTIONALFOR,
        A_SIGNATURE, A_SIZE, A_ISIZE, A_NONE, List.mem_cons, List.not_mem_nil,
        or_false] using ha
    rcases ha' with rfl | rfl | rfl | rfl | rfl | rfl | rfl | rfl | rfl | rfl | rfl | rfl |
      rfl | rfl | rfl | rfl | rfl | rfl | rfl | rfl | rfl | rfl | rfl <;>
      first
        | exact ⟨_, rfl⟩
        | exact hr
        | exact hu

end ClaimC8
/-- A hand-built record with out-of-range reason/state codes (in C++: a
`Package` whose enum fields were cast from invalid integers), exercising
the defensive error branches. -/
def badPackage : Package :=
  { name := "x", url := "", packager := "", desc := "", version := "1", dbname := "",
    builddate := 0, arch := "", size := 0, installsize := 0, sizestr := "",
    installsizestr := "", licenses := "", groups := "", optdepends := "", conflicts := "",
    provides := "", replaces := "", depends := "", signature := "None", localversion := "",
    updatestate := 9, requiredby := "", optionalfor := "", reason := 7, colindex := 0,
    op := 0 }

/-- Witness for C8: label mapping, defensive errors on out-of-range
codes, and guaranteed success on constructed packages. -/
theorem reason_state_accessors_spec_witness :
    getreason (mkPackage sampleVercmp id samplePkg (some sampleLocal)) = .ok "explicit" ∧
    getreason badPackage = .error "no package install reason." ∧
    getupdatestate badPackage = .error "no package update state." ∧
    (∃ s, getreason (mkPackage sampleVercmp id samplePkg none) = .ok s) ∧
    (∃ s, getattr sampleCtime (mkPackage sampleVercmp id samplePkg none) A_VERSION = .ok s) :=
  ⟨reason_state_accessors_spec.2.1 _ (by decide),
   reason_state_accessors_spec.2.2.2.1 badPackage (by decide) (by decide) (by decide),
   reason_state_accessors_spec.2.2.2.2.2.2.2.1 badPackage (by decide) (by decide) (by decide),
   (reason_state_accessors_spec.2.2.2.2.2.2.2.2.1 String sampleVercmp id samplePkg none).1,
   reason_state_accessors_spec.2.2.2.2.2.2.2.2.2 String sampleVercmp id samplePkg none
     sampleCtime A_VERSION (by decide)⟩

/-! ## Claim C9 -/

section ClaimC9

/-- C9: `setcolindex`/`getcolindex` and `setop`/`getop` store and
retrieve their values with no validation, and each mutator changes only
its own field: every other accessor returns the same value before and
after the mutation. -/
theorem mutators_spec (p : Package) (i : ℤ) (o : ℕ) (ctimeF : ℤ → String) (a : ℕ) :
    getcolindex (setcolindex p i) = i ∧
    getop (setop p o) = o ∧
    getop (setcolindex p i) = getop p ∧
    getcolindex (setop p o) = getcolindex p ∧
    getname (setcolindex p i) = getname p ∧ getname (setop p o) = getname p ∧
    getdesc (setcolindex p i) = getdesc p ∧ getdesc (setop p o) = getdesc p ∧
    getversion (setcolindex p i) = getversion p ∧ getversion (setop p o) = getversion p ∧
    getrepo (setcolindex p i) = getrepo p ∧ getrepo (setop p o) = getrepo p ∧
    getreason (setcolindex p i) = getreason p ∧ getreason (setop p o) = getreason p ∧
    getpackager (setcolindex p i) = getpackager p ∧ getpackager (setop p o) = getpackager p ∧
    geturl (setcolindex p i) = geturl p ∧ geturl (setop p o) = geturl p ∧
    getbuilddate ctimeF (setcolindex p i) = getbuilddate ctimeF p ∧
    getbuilddate ctimeF (setop p o) = getbuilddate ctimeF p ∧
    getarch (setcolindex p i) = getarch p ∧ getarch (setop p o) = getarch p ∧
    getlicenses (setcolindex p i) = getlicenses p ∧ getlicenses (setop p o) = getlicenses p ∧
    getgroups (setcolindex p i) = getgroups p ∧ getgroups (setop p o) = getgroups p ∧
    getdepends (setcolindex p i) = getdepends p ∧ getdepends (setop p o) = getdepends p ∧
    getoptdepends (setcolindex p i) = getoptdepends p ∧
    getoptdepends (setop p o) = getoptdepends p ∧
    getconflicts (setcolindex p i) = getconflicts p ∧
    getconflicts (setop p o) = getconflicts p ∧
    getprovides (setcolindex p i) = getprovides p ∧ getprovides (setop p o) = getprovides p ∧
    getreplaces (setcolindex p i) = getreplaces p ∧ getreplaces (setop p o) = getreplaces p ∧
    getrequiredby (setcolindex p i) = getrequiredby p ∧
    getrequiredby (setop p o) = getrequiredby p ∧
    getoptionalfor (setcolindex p i) = getoptionalfor p ∧
    getoptionalfor (setop p o) = getoptionalfor p ∧
    getsignature (setcolindex p i) = getsignature p ∧
    getsignature (setop p o) = getsignature p ∧
    getsize (setcolindex p i) = getsize p ∧ getsize (setop p o) = getsize p ∧
    getisize (setcolindex p i) = getisize p ∧ getisize (setop p o) = getisize p ∧
    getupdatestate (setcolindex p i) = getupdatestate p ∧
    getupdatestate (setop p o) = getupdatestate p ∧
    getattr ctimeF (setcolindex p i) a = getattr ctimeF p a ∧
    getattr ctimeF (setop p o) a = getattr ctimeF p a ∧
    getoffattr (setcolindex p i) a = getoffattr p a ∧
    getoffattr (setop p o) a = getoffattr p a := by
  repeat' apply And.intro
  all_goals rfl

end ClaimC9
